import Mathlib

/-!
Shallow embedding of `src/api.ts` of the qqbot repository: the credential
cache (`getAccessToken` / `clearTokenCache`), the per-conversation sequence
generator (`getNextMsgSeq` over the module-level `msgSeqTracker` Map), the
request primitive (`apiRequest`) and the message-sending facade
(`sendC2CMessage`, `sendChannelMessage`, `sendGroupMessage`,
`sendC2CMediaMessage`, `sendGroupMediaMessage`).

JavaScript `Map` iterates in insertion order and `set` on an existing key
keeps the key's original position, so the tracker is modelled as an
insertion-ordered association list.  Module-level mutable state is passed
explicitly; `Date.now()` and the two `fetch` calls are oracles passed as
arguments.
-/

set_option maxRecDepth 10000

namespace QQBot

/-- The `msgSeqTracker` state: a JS `Map` from message id to counter,
kept as an insertion-ordered association list.  The key type is a
parameter (the source uses strings; the algorithm never inspects keys
beyond equality). -/
abbrev SeqTable (κ : Type) := List (κ × Nat)

variable {κ : Type} [DecidableEq κ]

/-- `Map.prototype.get`: the value bound to `k`, or `none`. -/
def mapGet : SeqTable κ → κ → Option Nat
  | [], _ => none
  | (k', v) :: rest, k => if k' = k then some v else mapGet rest k

/-- `Map.prototype.set`: overwrite the binding of `k` in place if present
(a JS Map keeps the key's original insertion position), else append a new
binding at the end. -/
def mapSet : SeqTable κ → κ → Nat → SeqTable κ
  | [], k, v => [(k, v)]
  | (k', v') :: rest, k, v =>
      if k' = k then (k, v) :: rest else (k', v') :: mapSet rest k v

/-- `getNextMsgSeq(msgId)` (src/api.ts lines 73-89): read the counter
(`?? 0`), increment, store; then, if the map holds more than 1000
entries, delete the keys at positions 0..499 of `Array.from(keys())` —
since a Map's keys are distinct this removes exactly the first 500
entries, i.e. `drop 500`.  Returns `seqBaseTime + next`; the module
constant `seqBaseTime` is the `base` parameter here. -/
def getNextMsgSeq (base : Nat) (m : SeqTable κ) (msgId : κ) : SeqTable κ × Nat :=
  let current := (mapGet m msgId).getD 0
  let next := current + 1
  let m1 := mapSet m msgId next
  let m2 := if m1.length > 1000 then m1.drop 500 else m1
  (m2, base + next)

/-- Whether a single `getNextMsgSeq` call on state `m` triggers the
eviction sweep (the `size > 1000` branch). -/
def seqStepEvicts (m : SeqTable κ) (msgId : κ) : Bool :=
  (mapSet m msgId ((mapGet m msgId).getD 0 + 1)).length > 1000

/-- Run a sequence of `getNextMsgSeq` calls, returning the final tracker
state and the list of returned values in call order. -/
def runSeq (base : Nat) : SeqTable κ → List κ → SeqTable κ × List Nat
  | m, [] => (m, [])
  | m, k :: ks =>
      let step := getNextMsgSeq base m k
      let rest := runSeq base step.1 ks
      (rest.1, step.2 :: rest.2)

/-- Number of eviction sweeps triggered over a sequence of
`getNextMsgSeq` calls. -/
def runSeqEvictions (base : Nat) : SeqTable κ → List κ → Nat
  | _, [] => 0
  | m, k :: ks =>
      (if seqStepEvicts m k then 1 else 0) +
        runSeqEvictions base (getNextMsgSeq base m k).1 ks

/-! ### Basic association-list lemmas -/

theorem mapGet_mapSet_self (m : SeqTable κ) (k : κ) (v : Nat) :
    mapGet (mapSet m k v) k = some v := by
  induction m with
  | nil => simp [mapSet, mapGet]
  | cons p rest ih =>
      obtain ⟨k', v'⟩ := p
      by_cases h : k' = k <;> simp [mapSet, mapGet, h, ih]

theorem mapGet_mapSet_ne (m : SeqTable κ) (k k' : κ) (v : Nat) (h : k ≠ k') :
    mapGet (mapSet m k v) k' = mapGet m k' := by
  induction m with
  | nil => simp [mapSet, mapGet, h]
  | cons p rest ih =>
      obtain ⟨k0, v0⟩ := p
      by_cases h0 : k0 = k
      · subst h0
        simp [mapSet, mapGet, h]
      · simp [mapSet, mapGet, h0, ih]

theorem mapSet_fresh (m : SeqTable κ) (k : κ) (v : Nat) (h : mapGet m k = none) :
    mapSet m k v = m ++ [(k, v)] := by
  induction m with
  | nil => simp [mapSet]
  | cons p rest ih =>
      obtain ⟨k0, v0⟩ := p
      by_cases h0 : k0 = k
      · simp [mapGet, h0] at h
      · simp [mapGet, h0] at h
        simp [mapSet, h0, ih h]

theorem length_mapSet_mem (m : SeqTable κ) (k : κ) (v c : Nat)
    (h : mapGet m k = some c) : (mapSet m k v).length = m.length := by
  induction m with
  | nil => simp [mapGet] at h
  | cons p rest ih =>
      obtain ⟨k0, v0⟩ := p
      by_cases h0 : k0 = k
      · simp [mapSet, h0]
      · simp [mapGet, h0] at h
        simp [mapSet, h0, ih h]

theorem mapGet_append_of_none (m m' : SeqTable κ) (k : κ) (h : mapGet m k = none) :
    mapGet (m ++ m') k = mapGet m' k := by
  induction m with
  | nil => simp
  | cons p rest ih =>
      obtain ⟨k0, v0⟩ := p
      by_cases h0 : k0 = k
      · simp [mapGet, h0] at h
      · simp [mapGet, h0] at h
        simpa [mapGet, h0] using ih h

theorem mapGet_none_of_not_mem (m : SeqTable κ) (k : κ)
    (h : ∀ p ∈ m, p.1 ≠ k) : mapGet m k = none := by
  induction m with
  | nil => rfl
  | cons p rest ih =>
      obtain ⟨k0, v0⟩ := p
      have hk0 : k0 ≠ k := h (k0, v0) (by simp)
      simp only [mapGet, if_neg hk0]
      exact ih fun q hq => h q (by simp [hq])

theorem not_mem_of_mapGet_none (m : SeqTable κ) (k : κ)
    (h : mapGet m k = none) : ∀ p ∈ m, p.1 ≠ k := by
  induction m with
  | nil => simp
  | cons p rest ih =>
      obtain ⟨k0, v0⟩ := p
      by_cases h0 : k0 = k
      · simp [mapGet, h0] at h
      · simp [mapGet, h0] at h
        intro q hq
        rcases List.mem_cons.mp hq with h1 | h1
        · subst h1; exact h0
        · exact ih h q h1

theorem mapGet_drop_of_none (m : SeqTable κ) (n : Nat) (k : κ)
    (h : mapGet m k = none) : mapGet (m.drop n) k = none :=
  mapGet_none_of_not_mem _ _ fun p hp =>
    not_mem_of_mapGet_none m k h p (List.mem_of_mem_drop hp)

/-! ### Run lemmas for the sequence generator -/

theorem runSeq_append (base : Nat) (m : SeqTable κ) (l1 l2 : List κ) :
    runSeq base m (l1 ++ l2) =
      ((runSeq base (runSeq base m l1).1 l2).1,
        (runSeq base m l1).2 ++ (runSeq base (runSeq base m l1).1 l2).2) := by
  induction l1 generalizing m with
  | nil => simp [runSeq]
  | cons k ks ih => simp [runSeq, ih]

theorem runSeqEvictions_append (base : Nat) (m : SeqTable κ) (l1 l2 : List κ) :
    runSeqEvictions base m (l1 ++ l2) =
      runSeqEvictions base m l1 + runSeqEvictions base (runSeq base m l1).1 l2 := by
  induction l1 generalizing m with
  | nil => simp [runSeq, runSeqEvictions]
  | cons k ks ih => simp [runSeq, runSeqEvictions, ih]; omega

theorem getNextMsgSeq_fresh_val (base : Nat) (m : SeqTable κ) (k : κ)
    (hk : mapGet m k = none) : (getNextMsgSeq base m k).2 = base + 1 := by
  simp [getNextMsgSeq, hk]

/-- A call with a fresh key on a table strictly below the threshold:
the entry is appended and no eviction fires. -/
theorem getNextMsgSeq_fresh_small (base : Nat) (m : SeqTable κ) (k : κ)
    (hk : mapGet m k = none) (hlen : m.length + 1 ≤ 1000) :
    getNextMsgSeq base m k = (m ++ [(k, 1)], base + 1) ∧
    seqStepEvicts m k = false := by
  have hset : mapSet m k 1 = m ++ [(k, 1)] := mapSet_fresh m k 1 hk
  have hgt : ¬ (m ++ [(k, 1)]).length > 1000 := by
    simp only [List.length_append, List.length_cons, List.length_nil]
    omega
  constructor
  · simp only [getNextMsgSeq, hk, Option.getD_none, Nat.zero_add, hset]
    rw [if_neg hgt]
  · simp [seqStepEvicts, hk, hset]
    omega

/-- A call with a fresh key on a table holding exactly 1000 entries:
the entry is appended, the sweep fires and drops the oldest 500. -/
theorem getNextMsgSeq_fresh_evict (base : Nat) (m : SeqTable κ) (k : κ)
    (hk : mapGet m k = none) (hlen : m.length = 1000) :
    getNextMsgSeq base m k = (m.drop 500 ++ [(k, 1)], base + 1) ∧
    seqStepEvicts m k = true := by
  have hset : mapSet m k 1 = m ++ [(k, 1)] := mapSet_fresh m k 1 hk
  have hgt : (m ++ [(k, 1)]).length > 1000 := by simp [hlen]
  have hdrop : (m ++ [(k, 1)]).drop 500 = m.drop 500 ++ [(k, 1)] :=
    List.drop_append_of_le_length (by omega)
  constructor
  · simp only [getNextMsgSeq, hk, Option.getD_none, Nat.zero_add, hset]
    rw [if_pos hgt, hdrop]
  · simp [seqStepEvicts, hk, hset, hlen]

theorem mapGet_map_one_of_not_mem (l : List κ) (k : κ) (h : k ∉ l) :
    mapGet (l.map (fun x => (x, 1))) k = none := by
  apply mapGet_none_of_not_mem
  intro p hp
  obtain ⟨x, hx, rfl⟩ := List.mem_map.mp hp
  exact fun hc => h (hc ▸ hx)

/-- Running a list of pairwise-distinct keys that are all absent from the
table, with enough capacity left: every call returns `base + 1`, every
entry is appended with counter 1, and no eviction sweep fires. -/
theorem runSeq_fresh (base : Nat) (m : SeqTable κ) (ks : List κ)
    (hnd : ks.Nodup) (hfresh : ∀ k ∈ ks, mapGet m k = none)
    (hlen : m.length + ks.length ≤ 1000) :
    runSeq base m ks = (m ++ ks.map (fun k => (k, 1)), ks.map (fun _ => base + 1)) ∧
    runSeqEvictions base m ks = 0 := by
  induction ks generalizing m with
  | nil => simp [runSeq, runSeqEvictions]
  | cons k ks ih =>
      obtain ⟨hknotin, hndtail⟩ := List.nodup_cons.mp hnd
      have hk : mapGet m k = none := hfresh k (by simp)
      have hlen1 : m.length + 1 ≤ 1000 := by
        simp only [List.length_cons] at hlen
        omega
      obtain ⟨hstep, hevict⟩ := getNextMsgSeq_fresh_small base m k hk hlen1
      have hfresh' : ∀ k' ∈ ks, mapGet (m ++ [(k, 1)]) k' = none := by
        intro k' hk'
        rw [mapGet_append_of_none m _ k' (hfresh k' (by simp [hk']))]
        have hne : k ≠ k' := fun h => hknotin (h ▸ hk')
        simp [mapGet, hne]
      have hlen' : (m ++ [(k, 1)]).length + ks.length ≤ 1000 := by
        simp only [List.length_append, List.length_cons, List.length_nil,
          List.length_cons] at hlen ⊢
        omega
      obtain ⟨ih1, ih2⟩ := ih (m ++ [(k, 1)]) hndtail hfresh' hlen'
      constructor
      · simp [runSeq, hstep, ih1]
      · simp [runSeqEvictions, hevict, hstep, ih2]

/-- Running `getNextMsgSeq` once each over more than 1000 (and at most
1500) pairwise-distinct keys, starting from the empty tracker: every call
returns `base + 1`, exactly one eviction sweep fires, and the final table
holds exactly the keys after the first 500, each with counter 1. -/
theorem seqRun_distinct_overflow (base : Nat) (ks : List κ) (hnd : ks.Nodup)
    (h1 : 1000 < ks.length) (h2 : ks.length ≤ 1500) :
    runSeq base [] ks =
      ((ks.drop 500).map (fun x => (x, 1)), ks.map (fun _ => base + 1)) ∧
    runSeqEvictions base [] ks = 1 := by
  have hdropnil : ks.drop 1000 ≠ [] := by
    intro h
    have hld : (ks.drop 1000).length = ks.length - 1000 := List.length_drop 1000 ks
    rw [h] at hld
    simp at hld
    omega
  obtain ⟨k, ks2, hcons⟩ := List.exists_cons_of_ne_nil hdropnil
  have hsplit : ks = ks.take 1000 ++ k :: ks2 := by
    rw [← hcons, List.take_append_drop]
  have hlen1 : (ks.take 1000).length = 1000 := by
    rw [List.length_take]
    omega
  have hlen2 : ks2.length ≤ 499 := by
    have hld : (ks.drop 1000).length = ks.length - 1000 := List.length_drop 1000 ks
    rw [hcons] at hld
    simp at hld
    omega
  have hnd1 : (ks.take 1000).Nodup := (List.take_sublist 1000 ks).nodup hnd
  have hnddrop : (k :: ks2).Nodup := by
    rw [← hcons]
    exact (List.drop_sublist 1000 ks).nodup hnd
  obtain ⟨hknotin2, hnd2⟩ := List.nodup_cons.mp hnddrop
  have hdisj : List.Disjoint (ks.take 1000) (ks.drop 1000) :=
    List.disjoint_take_drop hnd (Nat.le_refl 1000)
  have hknot1 : k ∉ ks.take 1000 := fun hmem =>
    hdisj hmem (by rw [hcons]; exact List.mem_cons_self k ks2)
  obtain ⟨hrun1, hev1⟩ :=
    runSeq_fresh base [] (ks.take 1000) hnd1 (fun _ _ => rfl)
      (by simp only [List.length_nil]; omega)
  simp only [List.nil_append] at hrun1
  have hm1k : mapGet ((ks.take 1000).map (fun x => (x, 1))) k = none :=
    mapGet_map_one_of_not_mem _ _ hknot1
  have hm1len : ((ks.take 1000).map (fun x => (x, 1))).length = 1000 := by
    rw [List.length_map]
    exact hlen1
  obtain ⟨hstep, hevstep⟩ := getNextMsgSeq_fresh_evict base _ k hm1k hm1len
  have hfresh2 : ∀ k' ∈ ks2,
      mapGet (((ks.take 1000).map (fun x => (x, 1))).drop 500 ++ [(k, 1)]) k' = none := by
    intro k' hk'
    have hk'drop : k' ∈ ks.drop 1000 := by
      rw [hcons]; exact List.mem_cons_of_mem _ hk'
    have hk'not1 : k' ∉ ks.take 1000 := fun hmem => hdisj hmem hk'drop
    have hfirst : mapGet (((ks.take 1000).map (fun x => (x, 1))).drop 500) k' = none := by
      rw [← List.map_drop]
      exact mapGet_map_one_of_not_mem _ _
        (fun hmem => hk'not1 (List.mem_of_mem_drop hmem))
    rw [mapGet_append_of_none _ _ _ hfirst]
    have hne : k ≠ k' := fun h => hknotin2 (h ▸ hk')
    simp [mapGet, hne]
  have hm2len : (((ks.take 1000).map (fun x => (x, 1))).drop 500 ++ [(k, 1)]).length = 501 := by
    simp only [List.length_append, List.length_drop, List.length_map,
      List.length_cons, List.length_nil, hlen1]
  obtain ⟨hrun2, hev2⟩ :=
    runSeq_fresh base _ ks2 hnd2 hfresh2 (by rw [hm2len]; omega)
  constructor
  · rw [hsplit, runSeq_append]
    simp only [hrun1, runSeq, hstep, hrun2]
    rw [List.drop_append_of_le_length (by omega)]
    simp [List.map_append, List.append_assoc]
  · rw [hsplit, runSeqEvictions_append]
    simp only [hrun1, runSeqEvictions, hevstep, if_true, hstep, hev1, hev2]

/-- Per-step survival of a tracked key along a run: whenever the tracked
key is present in the table before a call, it is still present after that
call (i.e. no eviction sweep of the run removes it). -/
def keySurvives (base : Nat) (m : SeqTable κ) (ks : List κ) (tracked : κ) : Bool :=
  match ks with
  | [] => true
  | k :: rest =>
      (!(mapGet m tracked).isSome || (mapGet (getNextMsgSeq base m k).1 tracked).isSome)
        && keySurvives base (getNextMsgSeq base m k).1 rest tracked

theorem mapGet_eq_none_iff (m : SeqTable κ) (k : κ) :
    mapGet m k = none ↔ k ∉ m.map Prod.fst := by
  constructor
  · intro h hk
    obtain ⟨p, hp, hpk⟩ := List.mem_map.mp hk
    exact not_mem_of_mapGet_none m k h p hp hpk
  · intro h
    exact mapGet_none_of_not_mem m k fun p hp hpk =>
      h (hpk ▸ List.mem_map_of_mem Prod.fst hp)

theorem keys_mapSet_mem (m : SeqTable κ) (k : κ) (v c : Nat)
    (h : mapGet m k = some c) : (mapSet m k v).map Prod.fst = m.map Prod.fst := by
  induction m with
  | nil => simp [mapGet] at h
  | cons p rest ih =>
      obtain ⟨k0, v0⟩ := p
      by_cases h0 : k0 = k
      · simp [mapSet, h0]
      · simp [mapGet, h0] at h
        simp [mapSet, h0, ih h]

theorem nodup_keys_mapSet (m : SeqTable κ) (k : κ) (v : Nat)
    (hnd : (m.map Prod.fst).Nodup) : ((mapSet m k v).map Prod.fst).Nodup := by
  cases h : mapGet m k with
  | some c => rw [keys_mapSet_mem m k v c h]; exact hnd
  | none =>
      rw [mapSet_fresh m k v h, List.map_append]
      have hk : k ∉ m.map Prod.fst := (mapGet_eq_none_iff m k).mp h
      simp [List.nodup_append, hnd, hk]

theorem nodup_keys_getNextMsgSeq (base : Nat) (m : SeqTable κ) (k : κ)
    (hnd : (m.map Prod.fst).Nodup) :
    (((getNextMsgSeq base m k).1).map Prod.fst).Nodup := by
  have h1 := nodup_keys_mapSet m k ((mapGet m k).getD 0 + 1) hnd
  simp only [getNextMsgSeq]
  split
  · rw [List.map_drop]
    exact (List.drop_sublist 500 _).nodup h1
  · exact h1

/-- A lookup that still succeeds after dropping a prefix returns the same
value as before the drop, provided the keys were pairwise distinct. -/
theorem mapGet_drop_of_isSome (m : SeqTable κ) (n : Nat) (k : κ)
    (hnd : (m.map Prod.fst).Nodup) (h : (mapGet (m.drop n) k).isSome) :
    mapGet (m.drop n) k = mapGet m k := by
  induction m generalizing n with
  | nil => simp
  | cons p rest ih =>
      cases n with
      | zero => rfl
      | succ n' =>
          obtain ⟨k0, v0⟩ := p
          simp only [List.drop_succ_cons] at h ⊢
          simp only [List.map_cons, List.nodup_cons] at hnd
          obtain ⟨hk0, hndr⟩ := hnd
          by_cases hk : k0 = k
          · subst hk
            have hnone : mapGet rest k0 = none :=
              (mapGet_eq_none_iff rest k0).mpr (by simpa using hk0)
            rw [mapGet_drop_of_none rest n' k0 hnone] at h
            simp at h
          · rw [ih n' hndr h]
            simp [mapGet, hk]

theorem getNextMsgSeq_fst (base : Nat) (m : SeqTable κ) (k : κ) :
    (getNextMsgSeq base m k).1 =
      (if (mapSet m k ((mapGet m k).getD 0 + 1)).length > 1000
        then (mapSet m k ((mapGet m k).getD 0 + 1)).drop 500
        else mapSet m k ((mapGet m k).getD 0 + 1)) := rfl

theorem getNextMsgSeq_snd (base : Nat) (m : SeqTable κ) (k : κ) :
    (getNextMsgSeq base m k).2 = base + ((mapGet m k).getD 0 + 1) := rfl

/-- Along any run in which the tracked key survives every step, the value
returned by the i-th call, when that call is for the tracked key, is
`base` plus the key's starting counter plus the number of calls for the
tracked key among the first `i + 1` calls. -/
theorem runSeq_count (base : Nat) (ops : List κ) (tracked : κ) :
    ∀ (m : SeqTable κ) (c : Nat), (m.map Prod.fst).Nodup →
      keySurvives base m ops tracked = true →
      mapGet m tracked = (if c = 0 then none else some c) →
      ∀ i, ops[i]? = some tracked →
        (runSeq base m ops).2[i]? =
          some (base + c + (ops.take (i + 1)).count tracked) := by
  induction ops with
  | nil => intro m c _ _ _ i hi; simp at hi
  | cons op ops ih =>
      intro m c hnd hsur hc i hi
      simp only [keySurvives, Bool.and_eq_true] at hsur
      obtain ⟨hs1, hs2⟩ := hsur
      have hs1' : (mapGet m tracked).isSome = true →
          (mapGet (getNextMsgSeq base m op).1 tracked).isSome = true := by
        intro h
        rw [h] at hs1
        simpa using hs1
      have hgetD : (mapGet m tracked).getD 0 = c := by
        rw [hc]
        by_cases hcz : c = 0
        · simp [hcz]
        · simp [hcz]
      have hstateGet : mapGet (getNextMsgSeq base m op).1 tracked =
          if op = tracked then some (c + 1) else mapGet m tracked := by
        rcases eq_or_ne op tracked with hop | hop
        · subst hop
          rw [if_pos rfl, getNextMsgSeq_fst, hgetD]
          by_cases hev : (mapSet m op (c + 1)).length > 1000
          · rw [if_pos hev]
            by_cases hcz : c = 0
            · have hmnone : mapGet m op = none := by rw [hc, if_pos hcz]
              have hseteq : mapSet m op (c + 1) = m ++ [(op, c + 1)] :=
                mapSet_fresh _ _ _ hmnone
              rw [hseteq] at hev ⊢
              have hmlen : 500 ≤ m.length := by
                simp only [List.length_append, List.length_cons, List.length_nil] at hev
                omega
              rw [List.drop_append_of_le_length hmlen]
              rw [mapGet_append_of_none _ _ _ (mapGet_drop_of_none m 500 op hmnone)]
              simp [mapGet]
            · have hsome : (mapGet m op).isSome = true := by
                rw [hc, if_neg hcz]; rfl
              have hsur1 := hs1' hsome
              rw [getNextMsgSeq_fst, hgetD, if_pos hev] at hsur1
              have hnds : ((mapSet m op (c + 1)).map Prod.fst).Nodup :=
                nodup_keys_mapSet m op (c + 1) hnd
              rw [mapGet_drop_of_isSome _ 500 op hnds hsur1]
              exact mapGet_mapSet_self m op (c + 1)
          · rw [if_neg hev]
            exact mapGet_mapSet_self m op (c + 1)
        · rw [if_neg hop, getNextMsgSeq_fst]
          by_cases hev : (mapSet m op ((mapGet m op).getD 0 + 1)).length > 1000
          · rw [if_pos hev]
            by_cases hcz : c = 0
            · have hmnone : mapGet m tracked = none := by rw [hc, if_pos hcz]
              rw [hmnone]
              have hsetnone : mapGet (mapSet m op ((mapGet m op).getD 0 + 1)) tracked = none := by
                rw [mapGet_mapSet_ne m op tracked _ hop]
                exact hmnone
              exact mapGet_drop_of_none _ 500 tracked hsetnone
            · have hsome : (mapGet m tracked).isSome = true := by
                rw [hc, if_neg hcz]; rfl
              have hsur1 := hs1' hsome
              rw [getNextMsgSeq_fst, if_pos hev] at hsur1
              have hnds : ((mapSet m op ((mapGet m op).getD 0 + 1)).map Prod.fst).Nodup :=
                nodup_keys_mapSet m op _ hnd
              rw [mapGet_drop_of_isSome _ 500 tracked hnds hsur1]
              exact mapGet_mapSet_ne m op tracked _ hop
          · rw [if_neg hev]
            exact mapGet_mapSet_ne m op tracked _ hop
      have hnd' := nodup_keys_getNextMsgSeq base m op hnd
      cases i with
      | zero =>
          have hop : op = tracked := by simpa using hi
          subst hop
          have h2 : (getNextMsgSeq base m op).2 = base + (c + 1) := by
            rw [getNextMsgSeq_snd, hgetD]
          simp only [runSeq, List.getElem?_cons_zero, h2, List.take_succ_cons,
            List.take_zero, List.count_cons, List.count_nil, beq_self_eq_true,
            if_true, Option.some.injEq]
          omega
      | succ i' =>
          have hi' : ops[i']? = some tracked := by simpa using hi
          have hcnew : mapGet (getNextMsgSeq base m op).1 tracked =
              (if (if op = tracked then c + 1 else c) = 0 then none
                else some (if op = tracked then c + 1 else c)) := by
            rw [hstateGet]
            rcases eq_or_ne op tracked with hop | hop
            · simp [hop]
            · simp only [if_neg hop]
              exact hc
          have hrec := ih (getNextMsgSeq base m op).1
            (if op = tracked then c + 1 else c) hnd' hs2 hcnew i' hi'
          simp only [runSeq, List.getElem?_cons_succ]
          rw [hrec]
          simp only [List.take_succ_cons, List.count_cons, Option.some.injEq]
          rcases eq_or_ne op tracked with hop | hop
          · subst hop
            simp only [if_pos rfl, beq_self_eq_true, if_true]
            omega
          · have hbeq : (op == tracked) = false := by
              simpa using hop
            simp [if_neg hop, hbeq]

/-! ### Credential cache: `getAccessToken` / `clearTokenCache` -/

/-- The module-level `cachedToken` value: `{token, expiresAt}` or `null`.
`expiresAt` is a millisecond timestamp (a JS number; modelled as `Int`). -/
structure CachedCredential where
  token : String
  expiresAt : Int
deriving DecidableEq

/-- JS truthiness of an optional string: `undefined`/`null` and the empty
string are falsy.  Used by `msgId ?`, `content ?` and
`!data.access_token`. -/
def jsTruthy : Option String → Bool
  | none => false
  | some s => if s = "" then false else true

/-- Outcome of the single token-endpoint `fetch` in `getAccessToken`,
passed as an oracle: the network call may throw, `response.json()` may
throw, or the body parses to `{access_token?, expires_in?}` whose
`JSON.stringify` rendering is `raw`. -/
inductive TokenFetchOutcome where
  | netError (msg : String)
  | parseError (msg : String)
  | parsed (accessToken : Option String) (expiresIn : Option Int) (raw : String)
deriving DecidableEq

/-- Result of one `getAccessToken` call: the module cache afterwards, the
returned token or the thrown `Error`'s message, and whether the fetch
path was taken. -/
structure TokenCallResult where
  cache : Option CachedCredential
  result : Except String String
  didFetch : Bool

/-- The guard on line 20:
`cachedToken && Date.now() < cachedToken.expiresAt - 5 * 60 * 1000`. -/
def cacheHit (now : Int) (cache : Option CachedCredential) : Bool :=
  match cache with
  | none => false
  | some c => now < c.expiresAt - 5 * 60 * 1000

/-- The fetch-and-parse path of `getAccessToken` (lines 24-51): network
error, parse error, missing/falsy `access_token`, or success, in source
order.  On success the cache is replaced as a whole with
`{token: access_token, expiresAt: now + (expires_in ?? 7200) * 1000}`;
on every failure the cache is left untouched. -/
def tokenFetch (now : Int) (cache : Option CachedCredential)
    (outcome : TokenFetchOutcome) : TokenCallResult :=
  match outcome with
  | .netError msg =>
      { cache := cache,
        result := .error ("Network error getting access_token: " ++ msg),
        didFetch := true }
  | .parseError msg =>
      { cache := cache,
        result := .error ("Failed to parse access_token response: " ++ msg),
        didFetch := true }
  | .parsed tok exp raw =>
      if jsTruthy tok then
        { cache := some { token := tok.getD "", expiresAt := now + (exp.getD 7200) * 1000 },
          result := .ok (tok.getD ""),
          didFetch := true }
      else
        { cache := cache,
          result := .error ("Failed to get access_token: " ++ raw),
          didFetch := true }

/-- `getAccessToken(appId, clientSecret)` (lines 18-52), with `Date.now()`
and the fetch outcome passed explicitly: return the cached token when the
line-20 guard holds, otherwise take the fetch path. -/
def getAccessToken (now : Int) (cache : Option CachedCredential)
    (outcome : TokenFetchOutcome) : TokenCallResult :=
  match cache with
  | some c =>
      if now < c.expiresAt - 5 * 60 * 1000 then
        { cache := some c, result := .ok c.token, didFetch := false }
      else tokenFetch now (some c) outcome
  | none => tokenFetch now none outcome

/-- `clearTokenCache()` (lines 57-59): unconditionally reset the module
cache to `null`. -/
def clearTokenCache (_cache : Option CachedCredential) : Option CachedCredential :=
  none

/-! ### Request primitive: `apiRequest` -/

/-- The parsed JSON body of a platform response, as the error path of
`apiRequest` reads it: an optional `message` field, plus the body's
`JSON.stringify` rendering used as the fallback error text. -/
structure RespBody where
  message : Option String
  raw : String
deriving DecidableEq

/-- Outcome of the single `fetch` in `apiRequest`: a network error, or a
response with HTTP status flag `res.ok` whose body either parses to a
`RespBody` or fails to parse (with the parse error's message). -/
inductive ApiFetchOutcome where
  | netError (msg : String)
  | response (ok : Bool) (body : Except String RespBody)

/-- `apiRequest(accessToken, method, path, body?)` (lines 94-133): a
single attempt; it throws on network error, then on parse failure, then
on `!res.ok` (carrying `data.message ?? JSON.stringify(data)`); otherwise
it returns the parsed body. -/
def apiRequest (path : String) (outcome : ApiFetchOutcome) : Except String RespBody :=
  match outcome with
  | .netError msg => .error ("Network error [" ++ path ++ "]: " ++ msg)
  | .response ok body =>
      match body with
      | .error msg => .error ("Failed to parse response [" ++ path ++ "]: " ++ msg)
      | .ok data =>
          if ok then .ok data
          else .error ("API Error [" ++ path ++ "]: " ++ data.message.getD data.raw)

/-! ### Message facade: the request bodies shaped by the send operations -/

/-- The JSON request body a send operation passes to `apiRequest`;
fields that the operation does not set are `none`. -/
structure MessageBody where
  content : Option String
  msg_type : Option Nat
  msg_seq : Option Nat
  msg_id : Option String
  media : Option String
deriving DecidableEq

/-- `sendC2CMessage` (lines 146-159): its sequence-generator interaction
and the request body it shapes.  Both `msgId ? getNextMsgSeq(msgId) : 1`
and the conditional `msg_id` spread use JS truthiness of `msgId`. -/
def sendC2CMessage (base : Nat) (m : SeqTable String) (content : String)
    (msgId : Option String) : SeqTable String × MessageBody :=
  let seqStep := if jsTruthy msgId then getNextMsgSeq base m (msgId.getD "") else (m, 1)
  (seqStep.1,
    { content := some content, msg_type := some 0, msg_seq := some seqStep.2,
      msg_id := if jsTruthy msgId then msgId else none, media := none })

/-- `sendChannelMessage` (lines 164-174): no sequence number is computed
or placed in the body; only `content` and the conditional `msg_id`. -/
def sendChannelMessage (m : SeqTable String) (content : String)
    (msgId : Option String) : SeqTable String × MessageBody :=
  (m,
    { content := some content, msg_type := none, msg_seq := none,
      msg_id := if jsTruthy msgId then msgId else none, media := none })

/-- `sendGroupMessage` (lines 179-192): same shape as `sendC2CMessage`. -/
def sendGroupMessage (base : Nat) (m : SeqTable String) (content : String)
    (msgId : Option String) : SeqTable String × MessageBody :=
  let seqStep := if jsTruthy msgId then getNextMsgSeq base m (msgId.getD "") else (m, 1)
  (seqStep.1,
    { content := some content, msg_type := some 0, msg_seq := some seqStep.2,
      msg_id := if jsTruthy msgId then msgId else none, media := none })

/-- `sendC2CMediaMessage` (lines 296-311): rich-media body with
`msg_type: 7` and `media.file_info`; `content` is spread only when
truthy. -/
def sendC2CMediaMessage (base : Nat) (m : SeqTable String) (fileInfo : String)
    (msgId : Option String) (content : Option String) : SeqTable String × MessageBody :=
  let seqStep := if jsTruthy msgId then getNextMsgSeq base m (msgId.getD "") else (m, 1)
  (seqStep.1,
    { content := if jsTruthy content then content else none,
      msg_type := some 7, msg_seq := some seqStep.2,
      msg_id := if jsTruthy msgId then msgId else none, media := some fileInfo })

/-- `sendGroupMediaMessage` (lines 321-336): same shape as
`sendC2CMediaMessage`. -/
def sendGroupMediaMessage (base : Nat) (m : SeqTable String) (fileInfo : String)
    (msgId : Option String) (content : Option String) : SeqTable String × MessageBody :=
  let seqStep := if jsTruthy msgId then getNextMsgSeq base m (msgId.getD "") else (m, 1)
  (seqStep.1,
    { content := if jsTruthy content then content else none,
      msg_type := some 7, msg_seq := some seqStep.2,
      msg_id := if jsTruthy msgId then msgId else none, media := some fileInfo })

/-! ### Cache-path helper lemmas -/

theorem tokenFetch_didFetch (now : Int) (cache : Option CachedCredential)
    (o : TokenFetchOutcome) : (tokenFetch now cache o).didFetch = true := by
  cases o with
  | netError msg => rfl
  | parseError msg => rfl
  | parsed t e r =>
      simp only [tokenFetch]
      split <;> rfl

theorem getAccessToken_miss (now : Int) (cache : Option CachedCredential)
    (o : TokenFetchOutcome) (hmiss : cacheHit now cache = false) :
    getAccessToken now cache o = tokenFetch now cache o := by
  cases cache with
  | none => rfl
  | some c =>
      simp only [getAccessToken]
      rw [if_neg (by simpa [cacheHit] using hmiss)]

/-! ### Claim theorems -/

/-- C3: if a cached credential exists and now is before `expiresAt` minus
the 5-minute margin, `getAccessToken` returns the cached token and does
not fetch; if there is no cached credential or the margin has passed, it
takes the (single) fetch path; and after a successful fetch, a second
call still inside the validity window returns the same token without
fetching. -/
theorem C3_token_cache_validity (now now2 : Int) (c : CachedCredential)
    (cache : Option CachedCredential) (o o2 : TokenFetchOutcome) :
    (now < c.expiresAt - 5 * 60 * 1000 →
      getAccessToken now (some c) o =
        { cache := some c, result := .ok c.token, didFetch := false }) ∧
    (cacheHit now cache = false → (getAccessToken now cache o).didFetch = true) ∧
    (∀ t exp raw, cacheHit now cache = false → t ≠ "" →
      getAccessToken now cache (.parsed (some t) exp raw) =
        { cache := some { token := t, expiresAt := now + (exp.getD 7200) * 1000 },
          result := .ok t, didFetch := true } ∧
      (now2 < now + (exp.getD 7200) * 1000 - 5 * 60 * 1000 →
        getAccessToken now2
            (getAccessToken now cache (.parsed (some t) exp raw)).cache o2 =
          { cache := some { token := t, expiresAt := now + (exp.getD 7200) * 1000 },
            result := .ok t, didFetch := false })) := by
  refine ⟨?_, ?_, ?_⟩
  · intro h
    simp only [getAccessToken, if_pos h]
  · intro h
    rw [getAccessToken_miss now cache o h]
    exact tokenFetch_didFetch now cache o
  · intro t e r hmiss ht
    have htr : jsTruthy (some t) = true := by simp [jsTruthy, ht]
    have hfetch : getAccessToken now cache (.parsed (some t) e r) =
        { cache := some { token := t, expiresAt := now + (e.getD 7200) * 1000 },
          result := .ok t, didFetch := true } := by
      rw [getAccessToken_miss now cache _ hmiss]
      simp [tokenFetch, htr]
    refine ⟨hfetch, ?_⟩
    intro h2
    rw [hfetch]
    simp [getAccessToken, h2]
    intro hcon
    exact absurd hcon (by omega)

/-- C3 witness: concrete instances of the three parts at small inputs. -/
theorem C3_witness :
    getAccessToken 0 (some { token := "tok", expiresAt := 10000000 }) (.netError "boom") =
      { cache := some { token := "tok", expiresAt := 10000000 },
        result := .ok "tok", didFetch := false } ∧
    (getAccessToken 0 none (.netError "boom")).didFetch = true ∧
    getAccessToken 0 none (.parsed (some "t2") none "raw") =
      { cache := some { token := "t2", expiresAt := 0 + 7200 * 1000 },
        result := .ok "t2", didFetch := true } ∧
    getAccessToken 1 (getAccessToken 0 none (.parsed (some "t2") none "raw")).cache
        (.netError "z") =
      { cache := some { token := "t2", expiresAt := 0 + 7200 * 1000 },
        result := .ok "t2", didFetch := false } := by
  obtain ⟨h1, h2, h3⟩ :=
    C3_token_cache_validity 0 1 { token := "tok", expiresAt := 10000000 } none
      (.netError "boom") (.netError "z")
  obtain ⟨h31, h32⟩ := h3 "t2" none "raw" rfl (by decide)
  exact ⟨C3_token_cache_validity 0 1 { token := "tok", expiresAt := 10000000 }
      (some { token := "tok", expiresAt := 10000000 }) (.netError "boom")
      (.netError "z") |>.1 (by decide),
    h2 rfl, h31, h32 (by decide)⟩

/-- C4: when the fetch path is taken and the fetch fails — network error,
unparseable body, or a parsed body with a missing/falsy access_token —
the call fails with an error message carrying the underlying cause or the
response body, and the previously cached credential is left unchanged. -/
theorem C4_fetch_failure_preserves_cache (now : Int)
    (cache : Option CachedCredential) (hmiss : cacheHit now cache = false) :
    (∀ msg, getAccessToken now cache (.netError msg) =
      { cache := cache,
        result := .error ("Network error getting access_token: " ++ msg),
        didFetch := true }) ∧
    (∀ msg, getAccessToken now cache (.parseError msg) =
      { cache := cache,
        result := .error ("Failed to parse access_token response: " ++ msg),
        didFetch := true }) ∧
    (∀ tok exp raw, jsTruthy tok = false →
      getAccessToken now cache (.parsed tok exp raw) =
        { cache := cache,
          result := .error ("Failed to get access_token: " ++ raw),
          didFetch := true }) := by
  refine ⟨?_, ?_, ?_⟩
  · intro msg
    rw [getAccessToken_miss now cache _ hmiss]
    rfl
  · intro msg
    rw [getAccessToken_miss now cache _ hmiss]
    rfl
  · intro tok e r htok
    rw [getAccessToken_miss now cache _ hmiss]
    simp [tokenFetch, htok]

/-- C4 witness: a network error, a parse error, and a body without
access_token, each against a present-but-stale cached credential. -/
theorem C4_witness :
    cacheHit 400000 (some { token := "old", expiresAt := 500000 }) = false ∧
    getAccessToken 400000 (some { token := "old", expiresAt := 500000 }) (.netError "down") =
      { cache := some { token := "old", expiresAt := 500000 },
        result := .error ("Network error getting access_token: " ++ "down"),
        didFetch := true } ∧
    getAccessToken 400000 (some { token := "old", expiresAt := 500000 }) (.parseError "bad json") =
      { cache := some { token := "old", expiresAt := 500000 },
        result := .error ("Failed to parse access_token response: " ++ "bad json"),
        didFetch := true } ∧
    getAccessToken 400000 (some { token := "old", expiresAt := 500000 })
        (.parsed none none "errbody") =
      { cache := some { token := "old", expiresAt := 500000 },
        result := .error ("Failed to get access_token: " ++ "errbody"),
        didFetch := true } := by
  obtain ⟨h1, h2, h3⟩ :=
    C4_fetch_failure_preserves_cache 400000
      (some { token := "old", expiresAt := 500000 }) (by decide)
  exact ⟨by decide, h1 "down", h2 "bad json", h3 none none "errbody" rfl⟩

/-- C6: when the fetch path is taken and the response carries a (truthy)
access_token, the cached credential is replaced as a whole with
`{token: access_token, expiresAt: now + (expires_in ?? 7200) * 1000}` and
the new token is returned. -/
theorem C6_fetch_success_replaces_cache (now : Int)
    (cache : Option CachedCredential) (t : String) (exp : Option Int)
    (raw : String) (hmiss : cacheHit now cache = false) (ht : t ≠ "") :
    getAccessToken now cache (.parsed (some t) exp raw) =
      { cache := some { token := t, expiresAt := now + (exp.getD 7200) * 1000 },
        result := .ok t, didFetch := true } := by
  rw [getAccessToken_miss now cache _ hmiss]
  simp [tokenFetch, jsTruthy, ht]

/-- C6 witness: a fetch without expires_in defaults the expiry to 7200
seconds from now, replacing a stale cached credential. -/
theorem C6_witness :
    getAccessToken 400000 (some { token := "old", expiresAt := 500000 })
        (.parsed (some "fresh") none "raw") =
      { cache := some { token := "fresh", expiresAt := 400000 + 7200 * 1000 },
        result := .ok "fresh", didFetch := true } :=
  C6_fetch_success_replaces_cache 400000
    (some { token := "old", expiresAt := 500000 }) "fresh" none "raw"
    (by decide) (by decide)

/-- C8: clearTokenCache unconditionally discards the cached credential
(it is a total function, with no error case), and a getAccessToken call
on the cleared cache always takes the fetch path, whatever the discarded
credential was. -/
theorem C8_clear_then_fetch (cache : Option CachedCredential) (now : Int)
    (o : TokenFetchOutcome) :
    clearTokenCache cache = none ∧
    (getAccessToken now (clearTokenCache cache) o).didFetch = true :=
  ⟨rfl, tokenFetch_didFetch now none o⟩

/-- C5: apiRequest is a single attempt returning the parsed body or
exactly one of three errors, decided in source order: transport error
when the network call throws, decode error when the body cannot be
parsed, and — when the status indicates failure but the body parsed — an
API error carrying `message ?? JSON.stringify(data)`; in particular a
failure status with body `{message: "invalid param"}` yields the API
error carrying "invalid param", not a decode failure. -/
theorem C5_apiRequest_errors (path msg : String) (data : RespBody) :
    apiRequest path (.netError msg) =
      .error ("Network error [" ++ path ++ "]: " ++ msg) ∧
    (∀ ok : Bool, apiRequest path (.response ok (.error msg)) =
      .error ("Failed to parse response [" ++ path ++ "]: " ++ msg)) ∧
    apiRequest path (.response true (.ok data)) = .ok data ∧
    apiRequest path (.response false (.ok data)) =
      .error ("API Error [" ++ path ++ "]: " ++ data.message.getD data.raw) ∧
    (∀ raw, apiRequest path
        (.response false (.ok { message := some "invalid param", raw := raw })) =
      .error ("API Error [" ++ path ++ "]: " ++ "invalid param")) := by
  refine ⟨rfl, fun ok => rfl, rfl, rfl, fun raw => rfl⟩

/-- C9: every getNextMsgSeq call preserves the size bound of 1000
entries, leaves the call's own key present in the table (the sweep a
call triggers never evicts that key, which was just appended at the
end), and stores exactly the returned value minus base as the key's
counter. -/
theorem C9_step_invariant (base : Nat) (m : SeqTable κ) (k : κ)
    (hlen : m.length ≤ 1000) :
    (getNextMsgSeq base m k).1.length ≤ 1000 ∧
    mapGet (getNextMsgSeq base m k).1 k = some ((getNextMsgSeq base m k).2 - base) := by
  have hsub : (getNextMsgSeq base m k).2 - base = (mapGet m k).getD 0 + 1 := by
    rw [getNextMsgSeq_snd]
    omega
  cases hm : mapGet m k with
  | some c =>
      have hgd : (mapGet m k).getD 0 = c := by rw [hm]; rfl
      have hlenset : (mapSet m k (c + 1)).length = m.length :=
        length_mapSet_mem m k _ c hm
      have hfst : (getNextMsgSeq base m k).1 = mapSet m k (c + 1) := by
        rw [getNextMsgSeq_fst, hgd, if_neg (by rw [hlenset]; omega)]
      refine ⟨by rw [hfst, hlenset]; exact hlen, ?_⟩
      rw [hfst, hsub, hgd]
      exact mapGet_mapSet_self m k (c + 1)
  | none =>
      have hgd : (mapGet m k).getD 0 = 0 := by rw [hm]; rfl
      rcases Nat.lt_or_ge m.length 1000 with hl | hl
      · obtain ⟨hstep, _⟩ := getNextMsgSeq_fresh_small base m k hm (by omega)
        have hfst : (getNextMsgSeq base m k).1 = m ++ [(k, 1)] :=
          congrArg Prod.fst hstep
        refine ⟨by rw [hfst]; simp; omega, ?_⟩
        rw [hfst, hsub, hgd, mapGet_append_of_none m _ k hm]
        simp [mapGet]
      · have hl1000 : m.length = 1000 := Nat.le_antisymm hlen hl
        obtain ⟨hstep, _⟩ := getNextMsgSeq_fresh_evict base m k hm hl1000
        have hfst : (getNextMsgSeq base m k).1 = m.drop 500 ++ [(k, 1)] :=
          congrArg Prod.fst hstep
        refine ⟨by rw [hfst]; simp [hl1000], ?_⟩
        rw [hfst, hsub, hgd,
          mapGet_append_of_none _ _ k (mapGet_drop_of_none m 500 k hm)]
        simp [mapGet]

/-- C9 witness: a table with one live entry, stepped on that entry's
key. -/
theorem C9_witness :
    ([((0 : Nat), 41)] : SeqTable Nat).length ≤ 1000 ∧
    (getNextMsgSeq 7 [((0 : Nat), 41)] 0).1.length ≤ 1000 ∧
    mapGet (getNextMsgSeq 7 [((0 : Nat), 41)] 0).1 0 =
      some ((getNextMsgSeq 7 [((0 : Nat), 41)] 0).2 - 7) :=
  ⟨by decide, (C9_step_invariant 7 [(0, 41)] 0 (by decide)).1,
    (C9_step_invariant 7 [(0, 41)] 0 (by decide)).2⟩

/-- C10: passing the empty string as msgId behaves exactly like passing
no identifier, for each send operation taking an optional msgId: the
empty string is falsy in JS, so the call produces the very same body
(msg_seq 1, no msg_id field) and leaves the sequence table unchanged. -/
theorem C10_empty_msgId (base : Nat) (m : SeqTable String)
    (content fileInfo : String) (copt : Option String) :
    sendC2CMessage base m content (some "") = sendC2CMessage base m content none ∧
    sendGroupMessage base m content (some "") = sendGroupMessage base m content none ∧
    sendC2CMediaMessage base m fileInfo (some "") copt =
      sendC2CMediaMessage base m fileInfo none copt ∧
    sendGroupMediaMessage base m fileInfo (some "") copt =
      sendGroupMediaMessage base m fileInfo none copt ∧
    sendChannelMessage m content (some "") = sendChannelMessage m content none ∧
    (sendC2CMessage base m content (some "")).2.msg_seq = some 1 ∧
    (sendC2CMessage base m content (some "")).2.msg_id = none ∧
    (sendC2CMessage base m content (some "")).1 = m := by
  refine ⟨rfl, rfl, rfl, rfl, rfl, rfl, rfl, rfl⟩

/-- C7 (counterexample): sendChannelMessage, though given a message
identifier, puts no sequence number at all in the request body — msg_seq
is absent rather than the generator's value — and never consults the
generator. -/
theorem C7_counterexample :
    (sendChannelMessage [] "hello" (some "m1")).2.msg_seq = none ∧
    (sendChannelMessage [] "hello" (some "m1")).2.msg_seq ≠
      some (getNextMsgSeq 0 ([] : SeqTable String) "m1").2 ∧
    (sendChannelMessage [] "hello" (some "m1")).1 = [] := by
  refine ⟨rfl, ?_, rfl⟩
  intro h
  simp [sendChannelMessage] at h

/-- C7 (amended): the C2C and group send operations, when given a
message identifier, take their sequence number from the generator keyed
by that identifier and place it in the body, and use sequence number 1
when no identifier is supplied; the channel send operation places no
sequence number in its body and leaves the generator untouched. -/
theorem C7_send_seq (base : Nat) (m : SeqTable String) (content s : String)
    (hs : s ≠ "") :
    ((sendC2CMessage base m content (some s)).2.msg_seq =
        some (getNextMsgSeq base m s).2 ∧
      (sendC2CMessage base m content (some s)).1 = (getNextMsgSeq base m s).1) ∧
    ((sendC2CMessage base m content none).2.msg_seq = some 1 ∧
      (sendC2CMessage base m content none).1 = m) ∧
    ((sendGroupMessage base m content (some s)).2.msg_seq =
        some (getNextMsgSeq base m s).2 ∧
      (sendGroupMessage base m content (some s)).1 = (getNextMsgSeq base m s).1) ∧
    ((sendGroupMessage base m content none).2.msg_seq = some 1 ∧
      (sendGroupMessage base m content none).1 = m) ∧
    (sendChannelMessage m content (some s)).2.msg_seq = none ∧
    (sendChannelMessage m content (some s)).1 = m := by
  have htr : jsTruthy (some s) = true := by simp [jsTruthy, hs]
  refine ⟨⟨?_, ?_⟩, ⟨rfl, rfl⟩, ⟨?_, ?_⟩, ⟨rfl, rfl⟩, rfl, rfl⟩ <;>
    simp [sendC2CMessage, sendGroupMessage, htr]

/-- C7 witness: the amended statement at a concrete identifier on the
empty table. -/
theorem C7_witness :
    ((sendC2CMessage 5 [] "hi" (some "m1")).2.msg_seq =
        some (getNextMsgSeq 5 ([] : SeqTable String) "m1").2 ∧
      (sendC2CMessage 5 [] "hi" (some "m1")).1 =
        (getNextMsgSeq 5 ([] : SeqTable String) "m1").1) ∧
    ((sendC2CMessage 5 [] "hi" none).2.msg_seq = some 1 ∧
      (sendC2CMessage 5 [] "hi" none).1 = []) ∧
    ((sendGroupMessage 5 [] "hi" (some "m1")).2.msg_seq =
        some (getNextMsgSeq 5 ([] : SeqTable String) "m1").2 ∧
      (sendGroupMessage 5 [] "hi" (some "m1")).1 =
        (getNextMsgSeq 5 ([] : SeqTable String) "m1").1) ∧
    ((sendGroupMessage 5 [] "hi" none).2.msg_seq = some 1 ∧
      (sendGroupMessage 5 [] "hi" none).1 = []) ∧
    (sendChannelMessage [] "hi" (some "m1")).2.msg_seq = none ∧
    (sendChannelMessage [] "hi" (some "m1")).1 = [] :=
  C7_send_seq 5 [] "hi" "m1" (by decide)

/-- C1 (amended): for a fixed base and any sequence of calls from the
fresh (empty) tracker, as long as the key of interest is never removed by
an eviction sweep during the run, the i-th call, when it is the n-th call
for that key, returns base + n — interleaved calls for other keys do not
affect it. -/
theorem C1_per_key_sequence (base : Nat) (ops : List κ) (k : κ)
    (hsur : keySurvives base [] ops k = true) :
    ∀ i, ops[i]? = some k →
      (runSeq base [] ops).2[i]? = some (base + (ops.take (i + 1)).count k) := by
  intro i hi
  have h := runSeq_count base ops k [] 0 (by simp) hsur (by simp [mapGet]) i hi
  simpa using h

/-- C1 witness: base 7, run [0, 1, 0]; the third call is the second call
for key 0 and returns 7 + 2, despite the interleaved call for key 1. -/
theorem C1_witness :
    keySurvives 7 ([] : SeqTable Nat) [0, 1, 0] 0 = true ∧
    ([0, 1, 0] : List Nat)[2]? = some 0 ∧
    (runSeq 7 ([] : SeqTable Nat) [0, 1, 0]).2[2]? =
      some (7 + (([0, 1, 0] : List Nat).take 3).count 0) :=
  ⟨by decide, by decide, C1_per_key_sequence 7 [0, 1, 0] 0 (by decide) 2 (by decide)⟩

/-- C1 (counterexample): with base 0, key 0 is called once, then 1000
fresh keys are interleaved (their arrival evicts key 0), then key 0 is
called again: that second call for key 0 — position 1001 of the run —
returns 0 + 1, not 0 + 2 as the unconditional claim requires. -/
theorem C1_counterexample :
    ((List.range 1001 ++ [0]).take 1002).count 0 = 2 ∧
    (runSeq 0 ([] : SeqTable Nat) (List.range 1001 ++ [0])).2[1001]? = some (0 + 1) ∧
    (runSeq 0 ([] : SeqTable Nat) (List.range 1001 ++ [0])).2[1001]? ≠ some (0 + 2) := by
  obtain ⟨hrun, hev⟩ := seqRun_distinct_overflow 0 (List.range 1001)
    (List.nodup_range 1001) (by simp) (by simp)
  have h0take : (0 : Nat) ∈ (List.range 1001).take 500 := by
    rw [List.take_range]
    simp
  have h0drop : (0 : Nat) ∉ (List.range 1001).drop 500 := fun h =>
    (List.disjoint_take_drop (List.nodup_range 1001) (Nat.le_refl 500)) h0take h
  have hm10 : mapGet (((List.range 1001).drop 500).map (fun x => (x, 1))) 0 = none :=
    mapGet_map_one_of_not_mem _ _ h0drop
  have hgetval :
      (getNextMsgSeq 0 (((List.range 1001).drop 500).map (fun x => (x, 1))) 0).2 = 0 + 1 :=
    getNextMsgSeq_fresh_val _ _ _ hm10
  have happ : runSeq 0 ([] : SeqTable Nat) (List.range 1001 ++ [0]) =
      ((getNextMsgSeq 0 (((List.range 1001).drop 500).map (fun x => (x, 1))) 0).1,
        (List.range 1001).map (fun _ => 0 + 1) ++
          [(getNextMsgSeq 0 (((List.range 1001).drop 500).map (fun x => (x, 1))) 0).2]) := by
    rw [runSeq_append, hrun]
    simp [runSeq]
  have hfinal :
      (runSeq 0 ([] : SeqTable Nat) (List.range 1001 ++ [0])).2[1001]? = some (0 + 1) := by
    rw [happ]
    rw [List.getElem?_append_right (by simp)]
    simp only [List.length_map, List.length_range, Nat.sub_self,
      List.getElem?_cons_zero, Option.some.injEq]
    exact hgetval
  have hcount : ((List.range 1001 ++ [0]).take 1002).count 0 = 2 := by
    rw [List.take_of_length_le (by simp), List.count_append,
      List.count_eq_one_of_mem (List.nodup_range 1001) (by simp)]
    simp
  refine ⟨hcount, hfinal, by rw [hfinal]; decide⟩

/-- C2 (amended): starting from an empty table, calling getNextMsgSeq
once each with more than 1000 — and at most 1500 — distinct keys causes
exactly one eviction sweep, which removes exactly the 500
earliest-inserted keys and no others (the final table holds exactly the
later keys, each with counter 1); afterwards, a call for an evicted key
returns base + 1. -/
theorem C2_eviction_sweep (base : Nat) (ks : List κ) (hnd : ks.Nodup)
    (h1 : 1000 < ks.length) (h2 : ks.length ≤ 1500) :
    runSeqEvictions base [] ks = 1 ∧
    (runSeq base [] ks).1 = (ks.drop 500).map (fun x => (x, 1)) ∧
    ∀ e ∈ ks.take 500, (getNextMsgSeq base (runSeq base [] ks).1 e).2 = base + 1 := by
  obtain ⟨hrun, hev⟩ := seqRun_distinct_overflow base ks hnd h1 h2
  refine ⟨hev, by rw [hrun], ?_⟩
  intro e he
  simp only [hrun]
  apply getNextMsgSeq_fresh_val
  apply mapGet_map_one_of_not_mem
  intro hmem
  exact (List.disjoint_take_drop hnd (Nat.le_refl 500)) he hmem

/-- C2 witness: the amended statement at the 1001 distinct keys
0, ..., 1000 with base 0. -/
theorem C2_witness :
    (List.range 1001).Nodup ∧ 1000 < (List.range 1001).length ∧
    runSeqEvictions 0 ([] : SeqTable Nat) (List.range 1001) = 1 ∧
    (runSeq 0 ([] : SeqTable Nat) (List.range 1001)).1 =
      ((List.range 1001).drop 500).map (fun x => (x, 1)) ∧
    ∀ e ∈ (List.range 1001).take 500,
      (getNextMsgSeq 0 (runSeq 0 ([] : SeqTable Nat) (List.range 1001)).1 e).2 = 0 + 1 := by
  obtain ⟨h1, h2, h3⟩ := C2_eviction_sweep 0 (List.range 1001)
    (List.nodup_range 1001) (by simp) (by simp)
  exact ⟨List.nodup_range 1001, by simp, h1, h2, h3⟩

/-- C2 (counterexample): 1501 distinct keys are "more than 1000 distinct
keys", yet the run triggers two eviction sweeps, not exactly one — the
second fires when the table refills to 1001 entries at the 1501st key. -/
theorem C2_counterexample :
    (List.range 1501).Nodup ∧ 1000 < (List.range 1501).length ∧
    runSeqEvictions 0 ([] : SeqTable Nat) (List.range 1501) = 2 ∧
    runSeqEvictions 0 ([] : SeqTable Nat) (List.range 1501) ≠ 1 := by
  obtain ⟨hrun, hev⟩ := seqRun_distinct_overflow 0 (List.range 1500)
    (List.nodup_range 1500) (by simp) (by simp)
  have hfresh :
      mapGet (((List.range 1500).drop 500).map (fun x => (x, 1))) 1500 = none := by
    apply mapGet_map_one_of_not_mem
    intro hmem
    have h15 : (1500 : Nat) ∈ List.range 1500 := List.mem_of_mem_drop hmem
    simp [List.mem_range] at h15
  have hlen : (((List.range 1500).drop 500).map (fun x => (x, 1))).length = 1000 := by
    simp
  obtain ⟨hstep, hevstep⟩ := getNextMsgSeq_fresh_evict 0 _ 1500 hfresh hlen
  have htotal : runSeqEvictions 0 ([] : SeqTable Nat) (List.range 1501) = 2 := by
    rw [List.range_succ, runSeqEvictions_append, hev, hrun]
    simp only [runSeqEvictions, hevstep, if_true]
  refine ⟨List.nodup_range 1501, by simp, htotal, by rw [htotal]; decide⟩

end QQBot
